import Mathlib

/-!
Shallow embedding of `scripts/generate_entsoe_area_map.py`.

The script reads an ENTSO-E area-directory XML document, classifies each
`Domain` element to an ISO-3166 alpha-2 country code (`guess_iso`),
optionally merges previously generated JSON maps (`merge_existing`),
sorts buckets and keys, and writes 2-space-indented JSON with a trailing
newline.  Python strings are modelled as Lean `String`s (lists of
characters); `defaultdict(list)` is modelled as an insertion-ordered
association list.
-/

namespace Entsoe

/-! ### Python string primitives -/

/-- Python `str.split()` with no argument: split on runs of whitespace,
producing no empty tokens.  The accumulator holds the current token
reversed. -/
def pySplitAux : List Char → List Char → List (List Char)
  | [], acc => if acc.isEmpty then [] else [acc.reverse]
  | c :: cs, acc =>
    if c.isWhitespace then
      if acc.isEmpty then pySplitAux cs [] else acc.reverse :: pySplitAux cs []
    else pySplitAux cs (c :: acc)

def pySplit (s : List Char) : List (List Char) := pySplitAux s []

/-- Python `str.strip(chars)`: remove leading and trailing characters that
belong to the given set. -/
def pyStripChars (cset : List Char) (t : List Char) : List Char :=
  ((t.dropWhile (fun c => c ∈ cset)).reverse.dropWhile (fun c => c ∈ cset)).reverse

/-- Python `str.strip()`: remove leading and trailing whitespace. -/
def pyStrip (t : List Char) : List Char :=
  ((t.dropWhile Char.isWhitespace).reverse.dropWhile Char.isWhitespace).reverse

def pyStripStr (s : String) : String := String.mk (pyStrip s.data)

/-- Python `str.upper()` (ASCII model). -/
def pyUpper (t : List Char) : List Char := t.map Char.toUpper

/-! ### The force-override table (`FORCE_ISO` in the script) -/

def FORCE_ISO : List (String × String) :=
  [("10Y1001A1001A48H", "NO"),
   ("10YBE----------2", "BE"),
   ("10YNL----------L", "NL"),
   ("10YPT-REN------W", "PT"),
   ("10YFR-RTE------C", "FR"),
   ("10YDE-VE-------2", "DE"),
   ("10YDE-ENBW-----N", "DE"),
   ("10YDE-RWENET---I", "DE"),
   ("10YDE-EON------1", "DE"),
   ("10YGB----------A", "GB"),
   ("10YGB-NIR------Y", "GB"),
   ("10YIE-1001A00010", "IE"),
   ("10YCH-SWISSGRIDZ", "CH")]

/-- Dictionary lookup (`eic in FORCE_ISO` / `FORCE_ISO[eic]`). -/
def dictFind : List (String × String) → String → Option String
  | [], _ => none
  | (k, v) :: rest, key => if k = key then some v else dictFind rest key

/-! ### Classification (`guess_iso`) -/

/-- The characters stripped from each name token: `token.strip('()[]:/')`. -/
def tokenStripSet : List Char := ['(', ')', '[', ']', ':', '/']

/-- The two per-token rules of the name scan, in the order the loop body
checks them: a token of exactly 2 alphabetic characters is returned as is;
otherwise a token of length at least 3 whose first two characters are
alphabetic and whose third is a digit yields its first two characters. -/
def tokenCandidate (t : List Char) : Option (List Char) :=
  if t.length = 2 ∧ t.all Char.isAlpha then some t
  else if 3 ≤ t.length ∧ (t.take 2).all Char.isAlpha ∧ ((t.drop 2).headD ' ').isDigit then
    some (t.take 2)
  else none

/-- The `for token in tokens` loop: first token for which either rule fires. -/
def scanTokens : List (List Char) → Option (List Char)
  | [] => none
  | t :: ts =>
    match tokenCandidate t with
    | some r => some r
    | none => scanTokens ts

/-- The token list built from the display name:
`[token.strip('()[]:/') for token in upper_name.split() if token]`. -/
def nameTokens (name : String) : List (List Char) :=
  ((pySplit (pyUpper name.data)).filter (fun t => ¬ t.isEmpty)).map (pyStripChars tokenStripSet)

/-- The `10Y` fallback: for an EIC of length at least 5 starting with
`10Y`, the alphabetic characters among positions 3 and 4, accepted when
exactly 2 remain. -/
def eicFallback (eic : String) : Option String :=
  let eicL := eic.data
  if 5 ≤ eicL.length ∧ eicL.take 3 = ['1', '0', 'Y'] then
    let candidate := ((eicL.drop 3).take 2).filter Char.isAlpha
    if candidate.length = 2 then some (String.mk candidate) else none
  else none

/-- `guess_iso(name, eic)` from the script. -/
def guess_iso (name eic : String) : Option String :=
  match dictFind FORCE_ISO eic with
  | some v => some v
  | none =>
    match scanTokens (nameTokens name) with
    | some r => some (String.mk r)
    | none => eicFallback eic

/-! ### Normalisation (`normalise_iso`) -/

/-- `normalise_iso(value)`: `None` and the empty string give `None`;
otherwise strip, uppercase, and accept exactly when the length is 2. -/
def normalise_iso : Option String → Option String
  | none => none
  | some v =>
    if v = "" then none
    else
      let u := pyUpper (pyStrip v.data)
      if u.length = 2 then some (String.mk u) else none

/-! ### The area map (`defaultdict(list)` with insertion order) -/

/-- The mapping under construction: an insertion-ordered association list
from ISO key to bucket, mirroring a Python `dict` (unique keys, insertion
order). -/
abbrev AreaMap := List (String × List String)

/-- Dictionary lookup on the area map. -/
def findBucket : AreaMap → String → Option (List String)
  | [], _ => none
  | (k, b) :: rest, key => if k = key then some b else findBucket rest key

/-- The bucket of a key, empty when absent (read-only view). -/
def bucketOf (m : AreaMap) (k : String) : List String := (findBucket m k).getD []

/-- `defaultdict` access `area_map[key]` creates an empty bucket when the
key is absent (at the end, in insertion order). -/
def ensureKey (m : AreaMap) (k : String) : AreaMap :=
  if (findBucket m k).isSome then m else m ++ [(k, [])]

/-- `bucket.append(code)` for an existing key: append to that key's
bucket, leaving everything else unchanged. -/
def appendCode : AreaMap → String → String → AreaMap
  | [], _, _ => []
  | (k, b) :: rest, key, s =>
    if k = key then (k, b ++ [s]) :: rest else (k, b) :: appendCode rest key s

/-! ### Per-record insertion (the `for domain in domains` loop of `main`) -/

/-- An XML `Domain` element as `main` reads it: the optional text of the
namespaced and the plain `mRID`, `name` and `shortName` children. -/
structure Domain where
  mRID_ns : Option String
  mRID_plain : Option String
  name_ns : Option String
  shortName_ns : Option String
  name_plain : Option String
  shortName_plain : Option String

/-- Python `x or y` on an optional string: `y` when `x` is `None` or
empty, else the string. -/
def pyOrStr (x : Option String) (y : String) : String :=
  match x with
  | some s => if s = "" then y else s
  | none => y

/-- Python `x or y` on two optional strings (`None` and `''` are falsy). -/
def pyOrOpt (x y : Option String) : Option String :=
  match x with
  | some s => if s = "" then y else some s
  | none => y

/-- `eic = (findtext('gl:mRID') or findtext('mRID') or '').strip()`. -/
def domainEic (d : Domain) : String :=
  pyStripStr (pyOrStr d.mRID_ns (pyOrStr d.mRID_plain ""))

/-- The name fallback chain of `main`, stripped. -/
def domainName (d : Domain) : String :=
  pyStripStr
    (pyOrStr d.name_ns (pyOrStr d.shortName_ns (pyOrStr d.name_plain
      (pyOrStr d.shortName_plain ""))))

/-- Classified insertion: `bucket = result[iso]; if eic not in bucket:
bucket.append(eic)`. -/
def insertCode (m : AreaMap) (k eic : String) : AreaMap :=
  let m1 := ensureKey m k
  if eic ∈ bucketOf m1 k then m1 else appendCode m1 k eic

/-- The body of the `for domain in domains` loop: skip when the stripped
mRID text is empty, otherwise classify, fall back to the (already
normalised) default, and skip when no ISO results. -/
def processDomain (defaultIso : Option String) (m : AreaMap) (d : Domain) : AreaMap :=
  let eic := domainEic d
  if eic = "" then m
  else
    match pyOrOpt (normalise_iso (guess_iso (domainName d) eic)) defaultIso with
    | none => m
    | some iso => if iso = "" then m else insertCode m iso eic

/-- The `for domain in domains` loop from an arbitrary starting map. -/
def processAll (defaultIso : Option String) (m : AreaMap) : List Domain → AreaMap
  | [] => m
  | d :: ds => processAll defaultIso (processDomain defaultIso m d) ds

/-- The whole classification loop of `main`, starting from the empty
`defaultdict`. -/
def buildMap (domains : List Domain) (defaultIso : Option String) : AreaMap :=
  processAll defaultIso [] domains

/-! ### Merging (`merge_existing`) -/

/-- A JSON value, as `json.loads` produces it. -/
inductive Json where
  | null : Json
  | bool : Bool → Json
  | num : Int → Json
  | str : String → Json
  | arr : List Json → Json
  | obj : List (String × Json) → Json

/-- One path given to `--merge-existing`, after the file-system and
`json.loads` steps: the path does not exist, the text failed to parse, or
it parsed to a JSON value. -/
inductive DocInput where
  | missing : String → DocInput
  | parseError : String → String → DocInput
  | parsed : String → Json → DocInput

/-- An uncaught Python exception. -/
inductive PyErr where
  | attributeError : String → PyErr
deriving DecidableEq

/-- The warning `merge_existing` prints for a `json.JSONDecodeError`. -/
def parseWarning (path msg : String) : String :=
  "Warning: failed to parse " ++ path ++ ": " ++ msg

/-- One step of the inner `for code in codes` loop: append a non-empty
string not already present to the bucket of `k`; skip everything else. -/
def addCode1 (m : AreaMap) (k : String) (c : Json) : AreaMap :=
  match c with
  | Json.str s => if s ≠ "" ∧ ¬ s ∈ bucketOf m k then appendCode m k s else m
  | _ => m

/-- The inner `for code in codes` loop. -/
def addCodes (m : AreaMap) (k : String) : List Json → AreaMap
  | [] => m
  | c :: cs => addCodes (addCode1 m k c) k cs

/-- One `(iso, codes)` item of a merged document: skipped when the key
does not normalise or the value is not a list; otherwise the bucket is
created (`area_map[iso_key]`) and the codes folded in. -/
def mergeEntry (m : AreaMap) (e : String × Json) : AreaMap :=
  match normalise_iso (some e.1) with
  | none => m
  | some k =>
    match e.2 with
    | Json.arr cs => addCodes (ensureKey m k) k cs
    | _ => m

/-- `for iso, codes in loaded.items(): ...` over one parsed object. -/
def mergeDoc (m : AreaMap) : List (String × Json) → AreaMap
  | [] => m
  | e :: o => mergeDoc (mergeEntry m e) o

/-- `merge_existing(area_map, existing_paths)`.  A missing path is skipped
silently; a parse failure appends a warning and skips the document; a
document parsing to a non-object raises an uncaught `AttributeError` at
`loaded.items()` (aborting the whole call); an object is folded in.  The
accumulated warning list models what is printed to stderr. -/
def merge_existing : AreaMap → List DocInput → List String →
    Except PyErr (AreaMap × List String)
  | m, [], warns => Except.ok (m, warns)
  | m, d :: ds, warns =>
    match d with
    | DocInput.missing _ => merge_existing m ds warns
    | DocInput.parseError p msg => merge_existing m ds (warns ++ [parseWarning p msg])
    | DocInput.parsed _ j =>
      match j with
      | Json.obj o => merge_existing (mergeDoc m o) ds warns
      | _ => Except.error (PyErr.attributeError "items")

/-! ### Finalisation and serialisation -/

/-- CPython string comparison: lexicographic on code points.  This is the
order `list.sort()` and `sorted(...)` use on strings. -/
def charListLe : List Char → List Char → Bool
  | [], _ => true
  | _ :: _, [] => false
  | c :: cs, d :: ds =>
    if c.toNat < d.toNat then true
    else if d.toNat < c.toNat then false
    else charListLe cs ds

/-- `a <= b` on Python strings. -/
def strLe (a b : String) : Bool := charListLe a.data b.data

/-- `a <= b` on Python strings, as a decidable relation. -/
def strLeProp (a b : String) : Prop := strLe a b = true

instance : DecidableRel strLeProp :=
  fun a b => inferInstanceAs (Decidable (strLe a b = true))

/-- The key order used by `sorted(result.items(), key=lambda item:
item[0])`. -/
def keyLeProp (p q : String × List String) : Prop := strLeProp p.1 q.1

instance : DecidableRel keyLeProp :=
  fun p q => inferInstanceAs (Decidable (strLe p.1 q.1 = true))

/-- `for codes in result.values(): codes.sort()`.  Python `list.sort` is
a stable sort under `strLe`; it is modelled by insertion sort, which is
stable and sorts by the same total preorder. -/
def sortBuckets (m : AreaMap) : AreaMap :=
  m.map (fun p => (p.1, List.insertionSort strLeProp p.2))

/-- `dict(sorted(result.items(), key=lambda item: item[0]))`, modelled by
the stable insertion sort on the key order. -/
def sortByKey (m : AreaMap) : AreaMap :=
  List.insertionSort keyLeProp m

/-- The finalisation step of `main`: sort every bucket, then sort the
mapping by key. -/
def finalize (m : AreaMap) : AreaMap := sortByKey (sortBuckets m)

/-- Lower-case hexadecimal digit, as CPython emits in escapes. -/
def hexDigit (n : Nat) : Char :=
  if n < 10 then Char.ofNat (48 + n) else Char.ofNat (87 + n)

/-- Four hexadecimal digits of a value below 65536. -/
def hex4 (n : Nat) : List Char :=
  [hexDigit (n / 4096 % 16), hexDigit (n / 256 % 16), hexDigit (n / 16 % 16),
   hexDigit (n % 16)]

/-- `json.dumps` escaping of one character with the default
`ensure_ascii=True`: the seven short escapes, printable ASCII verbatim,
and `\uXXXX` (with surrogate pairs above the BMP) for the rest. -/
def jsonEscapeChar (c : Char) : List Char :=
  if c = '"' then ['\\', '"']
  else if c = '\\' then ['\\', '\\']
  else if c = '\n' then ['\\', 'n']
  else if c = '\t' then ['\\', 't']
  else if c = '\r' then ['\\', 'r']
  else if c = Char.ofNat 8 then ['\\', 'b']
  else if c = Char.ofNat 12 then ['\\', 'f']
  else if 32 ≤ c.toNat ∧ c.toNat ≤ 126 then [c]
  else if c.toNat < 65536 then '\\' :: 'u' :: hex4 c.toNat
  else
    ('\\' :: 'u' :: hex4 (55296 + (c.toNat - 65536) / 1024)) ++
      ('\\' :: 'u' :: hex4 (56320 + (c.toNat - 65536) % 1024))

/-- A JSON string literal for `s`. -/
def jsonQuote (s : String) : String :=
  String.mk ('"' :: (s.data.map jsonEscapeChar).flatten ++ ['"'])

/-- One bucket as `json.dumps` renders a list of strings at nesting depth
1 with `indent=2`. -/
def dumpBucket (codes : List String) : String :=
  match codes with
  | [] => "[]"
  | _ =>
    "[\n" ++ String.intercalate ",\n" (codes.map (fun s => "    " ++ jsonQuote s)) ++
      "\n  ]"

/-- `json.dumps(mapping, indent=2)` for a mapping from strings to lists
of strings. -/
def jsonDumps (m : AreaMap) : String :=
  match m with
  | [] => "\x7b\x7d"
  | _ =>
    "\x7b\n" ++
      String.intercalate ",\n"
        (m.map (fun p => "  " ++ jsonQuote p.1 ++ ": " ++ dumpBucket p.2)) ++
      "\n\x7d"

/-- The text `main` writes: `json.dumps(sorted_result, indent=2) + '\n'`. -/
def outputText (m : AreaMap) : String := jsonDumps (finalize m) ++ "\n"

/-- The run after XML parsing: build the map from the domain list and the
normalised default, merge the supplied documents, finalise and render.
Returns the written text and the merge warnings, or the uncaught
exception. -/
def runCore (domains : List Domain) (rawDefault : Option String)
    (docs : List DocInput) : Except PyErr (String × List String) :=
  match merge_existing (buildMap domains (normalise_iso rawDefault)) docs [] with
  | Except.error e => Except.error e
  | Except.ok (m, warns) => Except.ok (outputText m, warns)

/-! ### Invariant predicates -/

/-- Every bucket of the map holds pairwise-distinct codes. -/
def BucketsNodup (m : AreaMap) : Prop := ∀ p ∈ m, p.2.Nodup

/-- Every top-level key of the map has exactly two characters. -/
def KeysLen2 (m : AreaMap) : Prop := ∀ k ∈ m.map Prod.fst, k.data.length = 2

/-- A merge item `(iso, codes)` is already absorbed in `m`: its
normalised key (when any, and when the value is a list) is present and
every code the inner loop would keep is already in the bucket. -/
def EntryDone (m : AreaMap) (e : String × Json) : Prop :=
  match normalise_iso (some e.1) with
  | none => True
  | some k =>
    match e.2 with
    | Json.arr cs =>
      (findBucket m k).isSome = true ∧ ∀ s, Json.str s ∈ cs → s ≠ "" → s ∈ bucketOf m k
    | _ => True

/-! ## Lemmas about the comparator -/

theorem charListLe_total : ∀ a b, charListLe a b = true ∨ charListLe b a = true := by
  intro a
  induction a with
  | nil => intro b; left; rfl
  | cons x xs ih =>
    intro b
    cases b with
    | nil => right; rfl
    | cons y ys =>
      simp only [charListLe]
      rcases Nat.lt_trichotomy x.toNat y.toNat with h | h | h
      · left; simp [h]
      · rcases ih ys with h2 | h2
        · left; simp [h, h2]
        · right; simp [h.symm, h2, Nat.lt_irrefl]
      · right; simp [h]

theorem charListLe_trans :
    ∀ a b c, charListLe a b = true → charListLe b c = true → charListLe a c = true := by
  intro a
  induction a with
  | nil => intro b c _ _; rfl
  | cons x xs ih =>
    intro b c hab hbc
    cases b with
    | nil => simp [charListLe] at hab
    | cons y ys =>
      cases c with
      | nil => simp [charListLe] at hbc
      | cons z zs =>
        simp only [charListLe] at hab hbc ⊢
        by_cases hxy : x.toNat < y.toNat
        · by_cases hyz : y.toNat < z.toNat
          · simp [Nat.lt_trans hxy hyz]
          · by_cases hzy : z.toNat < y.toNat
            · rw [if_neg hyz, if_pos hzy] at hbc; cases hbc
            · have hyez : y.toNat = z.toNat := Nat.le_antisymm
                (Nat.le_of_not_lt hzy) (Nat.le_of_not_lt hyz)
              simp [hyez ▸ hxy]
        · by_cases hyx : y.toNat < x.toNat
          · rw [if_neg hxy, if_pos hyx] at hab; cases hab
          · have hxey : x.toNat = y.toNat := Nat.le_antisymm
              (Nat.le_of_not_lt hyx) (Nat.le_of_not_lt hxy)
            rw [if_neg hxy, if_neg hyx] at hab
            by_cases hyz : y.toNat < z.toNat
            · simp [hxey ▸ hyz]
            · by_cases hzy : z.toNat < y.toNat
              · rw [if_neg hyz, if_pos hzy] at hbc; cases hbc
              · rw [if_neg hyz, if_neg hzy] at hbc
                have h1 : ¬ x.toNat < z.toNat := by omega
                have h2 : ¬ z.toNat < x.toNat := by omega
                rw [if_neg h1, if_neg h2]
                exact ih ys zs hab hbc

instance : IsTotal String strLeProp :=
  ⟨fun a b => charListLe_total a.data b.data⟩

instance : IsTrans String strLeProp :=
  ⟨fun a b c => charListLe_trans a.data b.data c.data⟩

instance : IsTotal (String × List String) keyLeProp :=
  ⟨fun p q => charListLe_total p.1.data q.1.data⟩

instance : IsTrans (String × List String) keyLeProp :=
  ⟨fun p q r => charListLe_trans p.1.data q.1.data r.1.data⟩

/-! ## Lemmas about the association-list map -/

theorem findBucket_append (m m' : AreaMap) (k : String) :
    findBucket (m ++ m') k =
      match findBucket m k with
      | some b => some b
      | none => findBucket m' k := by
  induction m with
  | nil => rfl
  | cons p rest ih =>
    obtain ⟨k1, b1⟩ := p
    by_cases h : k1 = k
    · simp [findBucket, h]
    · simpa [findBucket, h] using ih

theorem ensureKey_of_isSome {m : AreaMap} {k : String}
    (h : (findBucket m k).isSome) : ensureKey m k = m := by
  unfold ensureKey
  simp [h]

theorem findBucket_ensureKey_self (m : AreaMap) (k : String) :
    (findBucket (ensureKey m k) k).isSome := by
  unfold ensureKey
  split
  · assumption
  · rename_i h
    rw [findBucket_append]
    cases hm : findBucket m k with
    | some b => simp
    | none => simp [findBucket]

theorem findBucket_ensureKey_isSome_mono {m : AreaMap} {k' : String} (k : String)
    (h : (findBucket m k').isSome) : (findBucket (ensureKey m k) k').isSome := by
  unfold ensureKey
  split
  · exact h
  · rw [findBucket_append]
    cases hm : findBucket m k' with
    | some b => simp
    | none => rw [hm] at h; cases h

theorem bucketOf_ensureKey (m : AreaMap) (k k' : String) :
    bucketOf (ensureKey m k) k' = bucketOf m k' := by
  unfold ensureKey
  split
  · rfl
  · rename_i h
    unfold bucketOf
    rw [findBucket_append]
    cases hm : findBucket m k' with
    | some b => rfl
    | none =>
      simp only [findBucket]
      by_cases hk : k = k'
      · subst hk
        rw [Option.isSome_iff_exists] at h
        push_neg at h
        simp
      · simp [hk]

theorem appendCode_of_none {m : AreaMap} {k : String} (s : String)
    (h : findBucket m k = none) : appendCode m k s = m := by
  induction m with
  | nil => rfl
  | cons p rest ih =>
    obtain ⟨k1, b1⟩ := p
    simp only [findBucket] at h
    by_cases hk : k1 = k
    · simp [hk] at h
    · simp only [appendCode, if_neg hk]
      rw [if_neg hk] at h
      rw [ih h]

theorem findBucket_appendCode_self {m : AreaMap} {k : String} {b : List String}
    (s : String) (h : findBucket m k = some b) :
    findBucket (appendCode m k s) k = some (b ++ [s]) := by
  induction m with
  | nil => cases h
  | cons p rest ih =>
    obtain ⟨k1, b1⟩ := p
    simp only [findBucket] at h
    by_cases hk : k1 = k
    · rw [if_pos hk] at h
      cases h
      simp [appendCode, hk, findBucket]
    · rw [if_neg hk] at h
      simp only [appendCode, if_neg hk, findBucket, if_neg hk]
      exact ih h

theorem findBucket_appendCode_ne {m : AreaMap} {k k' : String} (s : String)
    (h : k' ≠ k) : findBucket (appendCode m k s) k' = findBucket m k' := by
  induction m with
  | nil => rfl
  | cons p rest ih =>
    obtain ⟨k1, b1⟩ := p
    by_cases hk : k1 = k
    · subst hk
      simp only [appendCode, if_pos rfl, findBucket]
      rw [if_neg (fun hh => h hh.symm), if_neg (fun hh => h hh.symm)]
    · simp only [appendCode, if_neg hk, findBucket]
      by_cases h1 : k1 = k'
      · simp [h1]
      · simp only [if_neg h1]
        exact ih

theorem findBucket_appendCode_isSome {m : AreaMap} {k k' s : String}
    (h : (findBucket m k').isSome) : (findBucket (appendCode m k s) k').isSome := by
  by_cases hk : k' = k
  · subst hk
    cases hm : findBucket m k' with
    | none => rw [hm] at h; cases h
    | some b => rw [findBucket_appendCode_self s hm]; rfl
  · rw [findBucket_appendCode_ne s hk]; exact h

theorem mem_bucketOf_appendCode {m : AreaMap} {k k' s t : String}
    (h : t ∈ bucketOf m k') : t ∈ bucketOf (appendCode m k s) k' := by
  by_cases hk : k' = k
  · subst hk
    cases hm : findBucket m k' with
    | none => unfold bucketOf at h; rw [hm] at h; cases h
    | some b =>
      unfold bucketOf at h ⊢
      rw [hm] at h
      rw [findBucket_appendCode_self s hm]
      simp only [Option.getD_some] at h ⊢
      exact List.mem_append_left _ h
  · unfold bucketOf at h ⊢
    rw [findBucket_appendCode_ne s hk]
    exact h

theorem self_mem_bucketOf_appendCode {m : AreaMap} {k : String} (s : String)
    (h : (findBucket m k).isSome) : s ∈ bucketOf (appendCode m k s) k := by
  cases hm : findBucket m k with
  | none => rw [hm] at h; cases h
  | some b =>
    unfold bucketOf
    rw [findBucket_appendCode_self s hm]
    simp

/-! ## Lemmas about the merge loops -/

theorem findBucket_addCode1_isSome {m : AreaMap} {k k' : String} (c : Json)
    (h : (findBucket m k').isSome) : (findBucket (addCode1 m k c) k').isSome := by
  cases c
  case str s =>
    simp only [addCode1]
    split
    · exact findBucket_appendCode_isSome h
    · exact h
  all_goals exact h

theorem mem_bucketOf_addCode1 {m : AreaMap} {k k' t : String} (c : Json)
    (h : t ∈ bucketOf m k') : t ∈ bucketOf (addCode1 m k c) k' := by
  cases c
  case str s =>
    simp only [addCode1]
    split
    · exact mem_bucketOf_appendCode h
    · exact h
  all_goals exact h

theorem findBucket_addCodes_isSome (cs : List Json) {m : AreaMap} {k k' : String}
    (h : (findBucket m k').isSome) : (findBucket (addCodes m k cs) k').isSome := by
  induction cs generalizing m with
  | nil => exact h
  | cons c cs ih => exact ih (findBucket_addCode1_isSome c h)

theorem mem_bucketOf_addCodes (cs : List Json) {m : AreaMap} {k k' t : String}
    (h : t ∈ bucketOf m k') : t ∈ bucketOf (addCodes m k cs) k' := by
  induction cs generalizing m with
  | nil => exact h
  | cons c cs ih => exact ih (mem_bucketOf_addCode1 c h)

theorem mem_bucketOf_addCodes_of_mem (cs : List Json) :
    ∀ {m : AreaMap} {k s : String}, (findBucket m k).isSome → Json.str s ∈ cs →
      s ≠ "" → s ∈ bucketOf (addCodes m k cs) k := by
  induction cs with
  | nil => intro m k s _ hmem; cases hmem
  | cons c cs ih =>
    intro m k s hsome hmem hne
    rcases List.mem_cons.mp hmem with heq | htail
    · subst heq
      simp only [addCodes, addCode1]
      split
      · exact mem_bucketOf_addCodes cs (self_mem_bucketOf_appendCode s hsome)
      · rename_i hguard
        have hs : s ∈ bucketOf m k := by
          by_contra hns
          exact hguard ⟨hne, hns⟩
        exact mem_bucketOf_addCodes cs hs
    · exact ih (findBucket_addCode1_isSome c hsome) htail hne

theorem addCodes_of_done (cs : List Json) :
    ∀ {m : AreaMap} {k : String},
      (∀ s, Json.str s ∈ cs → s ≠ "" → s ∈ bucketOf m k) → addCodes m k cs = m := by
  induction cs with
  | nil => intro m k _; rfl
  | cons c cs ih =>
    intro m k h
    have hstep : addCode1 m k c = m := by
      cases c
      case str s =>
        simp only [addCode1]
        rw [if_neg]
        intro hg
        exact hg.2 (h s (List.mem_cons_self _ _) hg.1)
      all_goals rfl
    simp only [addCodes, hstep]
    exact ih (fun s hs hne => h s (List.mem_cons_of_mem _ hs) hne)

theorem mergeEntry_isSome_mono {m : AreaMap} {k' : String} (e : String × Json)
    (h : (findBucket m k').isSome) : (findBucket (mergeEntry m e) k').isSome := by
  unfold mergeEntry
  cases hn : normalise_iso (some e.1) with
  | none => exact h
  | some k =>
    cases h2 : e.2
    case arr cs =>
      exact findBucket_addCodes_isSome cs (findBucket_ensureKey_isSome_mono k h)
    all_goals exact h

theorem mem_bucketOf_mergeEntry {m : AreaMap} {k' t : String} (e : String × Json)
    (h : t ∈ bucketOf m k') : t ∈ bucketOf (mergeEntry m e) k' := by
  unfold mergeEntry
  cases hn : normalise_iso (some e.1) with
  | none => exact h
  | some k =>
    cases h2 : e.2
    case arr cs =>
      refine mem_bucketOf_addCodes cs ?_
      rw [bucketOf_ensureKey]
      exact h
    all_goals exact h

theorem entryDone_mergeEntry {m : AreaMap} {e : String × Json} (e' : String × Json)
    (h : EntryDone m e) : EntryDone (mergeEntry m e') e := by
  unfold EntryDone at h ⊢
  cases hn : normalise_iso (some e.1) with
  | none => trivial
  | some k =>
    rw [hn] at h
    cases h2 : e.2
    case arr cs =>
      rw [h2] at h
      exact ⟨mergeEntry_isSome_mono e' h.1,
        fun s hs hne => mem_bucketOf_mergeEntry e' (h.2 s hs hne)⟩
    all_goals trivial

theorem entryDone_self (m : AreaMap) (e : String × Json) :
    EntryDone (mergeEntry m e) e := by
  unfold EntryDone
  cases hn : normalise_iso (some e.1) with
  | none => trivial
  | some k =>
    cases h2 : e.2
    case arr cs =>
      constructor
      · unfold mergeEntry
        rw [hn, h2]
        exact findBucket_addCodes_isSome cs (findBucket_ensureKey_self m k)
      · intro s hs hne
        unfold mergeEntry
        rw [hn, h2]
        exact mem_bucketOf_addCodes_of_mem cs (findBucket_ensureKey_self m k) hs hne
    all_goals trivial

theorem mergeEntry_of_done {m : AreaMap} {e : String × Json}
    (h : EntryDone m e) : mergeEntry m e = m := by
  unfold EntryDone at h
  unfold mergeEntry
  cases hn : normalise_iso (some e.1) with
  | none => rfl
  | some k =>
    rw [hn] at h
    cases h2 : e.2
    case arr cs =>
      rw [h2] at h
      have h' : (findBucket m k).isSome = true ∧
          ∀ s, Json.str s ∈ cs → s ≠ "" → s ∈ bucketOf m k := h
      show addCodes (ensureKey m k) k cs = m
      rw [ensureKey_of_isSome h'.1]
      exact addCodes_of_done cs h'.2
    all_goals rfl

theorem entryDone_mergeDoc (o : List (String × Json)) {m : AreaMap}
    {e : String × Json} (h : EntryDone m e) : EntryDone (mergeDoc m o) e := by
  induction o generalizing m with
  | nil => exact h
  | cons e' o ih => exact ih (entryDone_mergeEntry e' h)

theorem entryDone_all_mergeDoc (o : List (String × Json)) :
    ∀ {m : AreaMap} {e : String × Json}, e ∈ o → EntryDone (mergeDoc m o) e := by
  induction o with
  | nil => intro m e h; cases h
  | cons e' o ih =>
    intro m e h
    rcases List.mem_cons.mp h with rfl | h2
    · exact entryDone_mergeDoc o (entryDone_self m e)
    · exact ih h2

theorem mergeDoc_of_done (o : List (String × Json)) :
    ∀ {m : AreaMap}, (∀ e ∈ o, EntryDone m e) → mergeDoc m o = m := by
  induction o with
  | nil => intro m _; rfl
  | cons e o ih =>
    intro m h
    have h1 : mergeEntry m e = m := mergeEntry_of_done (h e (List.mem_cons_self _ _))
    simp only [mergeDoc, h1]
    exact ih (fun e' he' => h e' (List.mem_cons_of_mem _ he'))

/-- Merging the same parsed object twice changes nothing the second
time. -/
theorem mergeDoc_idem (m : AreaMap) (o : List (String × Json)) :
    mergeDoc (mergeDoc m o) o = mergeDoc m o :=
  mergeDoc_of_done o (fun _ he => entryDone_all_mergeDoc o he)

/-! ## Preservation of bucket uniqueness -/

theorem bucketsNodup_appendCode :
    ∀ {m : AreaMap} {k s : String}, BucketsNodup m → ¬ s ∈ bucketOf m k →
      BucketsNodup (appendCode m k s) := by
  intro m
  induction m with
  | nil => intro k s _ _ p hp; cases hp
  | cons q rest ih =>
    obtain ⟨k1, b1⟩ := q
    intro k s h hs
    by_cases hk : k1 = k
    · subst hk
      simp only [bucketOf, findBucket, if_pos rfl, Option.getD_some] at hs
      simp only [appendCode, if_pos rfl]
      intro p hp
      rcases List.mem_cons.mp hp with rfl | hp2
      · have hb1 : b1.Nodup := h (k1, b1) (List.mem_cons_self _ _)
        show (b1 ++ [s]).Nodup
        rw [List.nodup_append]
        refine ⟨hb1, List.nodup_singleton s, ?_⟩
        intro a ha hb
        rw [List.mem_singleton] at hb
        subst hb
        exact hs ha
      · exact h p (List.mem_cons_of_mem _ hp2)
    · simp only [appendCode, if_neg hk]
      have hrest : BucketsNodup rest := fun q hq => h q (List.mem_cons_of_mem _ hq)
      have hsrest : ¬ s ∈ bucketOf rest k := by
        simpa [bucketOf, findBucket, hk] using hs
      have hind := ih hrest hsrest
      intro p hp
      rcases List.mem_cons.mp hp with rfl | hp2
      · exact h (k1, b1) (List.mem_cons_self _ _)
      · exact hind p hp2

theorem bucketsNodup_ensureKey {m : AreaMap} (k : String)
    (h : BucketsNodup m) : BucketsNodup (ensureKey m k) := by
  unfold ensureKey
  split
  · exact h
  · intro p hp
    rcases List.mem_append.mp hp with hp1 | hp2
    · exact h p hp1
    · rw [List.mem_singleton] at hp2
      subst hp2
      exact List.nodup_nil

theorem bucketsNodup_addCode1 {m : AreaMap} {k : String} (c : Json)
    (h : BucketsNodup m) : BucketsNodup (addCode1 m k c) := by
  cases c
  case str s =>
    simp only [addCode1]
    split
    · rename_i hg
      exact bucketsNodup_appendCode h hg.2
    · exact h
  all_goals exact h

theorem bucketsNodup_addCodes (cs : List Json) {m : AreaMap} {k : String}
    (h : BucketsNodup m) : BucketsNodup (addCodes m k cs) := by
  induction cs generalizing m with
  | nil => exact h
  | cons c cs ih => exact ih (bucketsNodup_addCode1 c h)

theorem bucketsNodup_mergeEntry {m : AreaMap} (e : String × Json)
    (h : BucketsNodup m) : BucketsNodup (mergeEntry m e) := by
  unfold mergeEntry
  cases hn : normalise_iso (some e.1) with
  | none => exact h
  | some k =>
    cases h2 : e.2
    case arr cs => exact bucketsNodup_addCodes cs (bucketsNodup_ensureKey k h)
    all_goals exact h

theorem bucketsNodup_mergeDoc (o : List (String × Json)) {m : AreaMap}
    (h : BucketsNodup m) : BucketsNodup (mergeDoc m o) := by
  induction o generalizing m with
  | nil => exact h
  | cons e o ih => exact ih (bucketsNodup_mergeEntry e h)

theorem bucketsNodup_insertCode {m : AreaMap} (k eic : String)
    (h : BucketsNodup m) : BucketsNodup (insertCode m k eic) := by
  unfold insertCode
  dsimp only
  split
  · exact bucketsNodup_ensureKey k h
  · rename_i hg
    exact bucketsNodup_appendCode (bucketsNodup_ensureKey k h) hg

theorem bucketsNodup_processDomain {m : AreaMap} (defaultIso : Option String)
    (d : Domain) (h : BucketsNodup m) : BucketsNodup (processDomain defaultIso m d) := by
  unfold processDomain
  dsimp only
  split
  · exact h
  · split
    · exact h
    · split
      · exact h
      · exact bucketsNodup_insertCode _ _ h

theorem bucketsNodup_processAll (domains : List Domain) {m : AreaMap}
    (defaultIso : Option String) (h : BucketsNodup m) :
    BucketsNodup (processAll defaultIso m domains) := by
  induction domains generalizing m with
  | nil => exact h
  | cons d ds ih => exact ih (bucketsNodup_processDomain defaultIso d h)

theorem bucketsNodup_buildMap (domains : List Domain) (defaultIso : Option String) :
    BucketsNodup (buildMap domains defaultIso) :=
  bucketsNodup_processAll domains defaultIso (fun _ hp => absurd hp (List.not_mem_nil _))

theorem bucketsNodup_merge_existing (docs : List DocInput) :
    ∀ {m : AreaMap} {warns : List String} {m' : AreaMap} {warns' : List String},
      BucketsNodup m → merge_existing m docs warns = Except.ok (m', warns') →
      BucketsNodup m' := by
  induction docs with
  | nil =>
    intro m warns m' warns' h heq
    cases heq
    exact h
  | cons d ds ih =>
    intro m warns m' warns' h heq
    cases d with
    | missing p => exact ih h heq
    | parseError p msg => exact ih h heq
    | parsed p j =>
      cases j
      case obj o => exact ih (bucketsNodup_mergeDoc o h) heq
      all_goals cases heq

/-! ## Preservation of the two-character key shape -/

theorem normalise_iso_len2 {v : Option String} {s : String}
    (h : normalise_iso v = some s) : s.data.length = 2 := by
  cases v with
  | none => cases h
  | some x =>
    unfold normalise_iso at h
    dsimp only at h
    split at h
    · cases h
    · split at h
      · rename_i hlen
        cases h
        exact hlen
      · cases h

theorem pyOrOpt_norm_len2 {a b : Option String} {k : String}
    (h : pyOrOpt (normalise_iso a) (normalise_iso b) = some k) : k.data.length = 2 := by
  unfold pyOrOpt at h
  cases ha : normalise_iso a with
  | none =>
    rw [ha] at h
    exact normalise_iso_len2 h
  | some s =>
    rw [ha] at h
    dsimp only at h
    split at h
    · exact normalise_iso_len2 h
    · cases h
      exact normalise_iso_len2 ha

theorem keys_appendCode (m : AreaMap) (k s : String) :
    (appendCode m k s).map Prod.fst = m.map Prod.fst := by
  induction m with
  | nil => rfl
  | cons q rest ih =>
    obtain ⟨k1, b1⟩ := q
    by_cases hk : k1 = k
    · simp [appendCode, hk]
    · simp only [appendCode, if_neg hk, List.map_cons]
      rw [ih]

theorem keysLen2_appendCode {m : AreaMap} {k s : String}
    (h : KeysLen2 m) : KeysLen2 (appendCode m k s) := by
  intro k' hk'
  rw [keys_appendCode] at hk'
  exact h k' hk'

theorem keysLen2_ensureKey {m : AreaMap} {k : String}
    (hk : k.data.length = 2) (h : KeysLen2 m) : KeysLen2 (ensureKey m k) := by
  unfold ensureKey
  split
  · exact h
  · intro k' hk'
    rw [List.map_append] at hk'
    rcases List.mem_append.mp hk' with h1 | h2
    · exact h k' h1
    · simp only [List.map_cons, List.map_nil, List.mem_singleton] at h2
      subst h2
      exact hk

theorem keysLen2_addCode1 {m : AreaMap} {k : String} (c : Json)
    (h : KeysLen2 m) : KeysLen2 (addCode1 m k c) := by
  cases c
  case str s =>
    simp only [addCode1]
    split
    · exact keysLen2_appendCode h
    · exact h
  all_goals exact h

theorem keysLen2_addCodes (cs : List Json) {m : AreaMap} {k : String}
    (h : KeysLen2 m) : KeysLen2 (addCodes m k cs) := by
  induction cs generalizing m with
  | nil => exact h
  | cons c cs ih => exact ih (keysLen2_addCode1 c h)

theorem keysLen2_insertCode {m : AreaMap} {k : String} (eic : String)
    (hk : k.data.length = 2) (h : KeysLen2 m) : KeysLen2 (insertCode m k eic) := by
  unfold insertCode
  dsimp only
  split
  · exact keysLen2_ensureKey hk h
  · exact keysLen2_appendCode (keysLen2_ensureKey hk h)

theorem keysLen2_processDomain {m : AreaMap} (raw : Option String) (d : Domain)
    (h : KeysLen2 m) : KeysLen2 (processDomain (normalise_iso raw) m d) := by
  unfold processDomain
  dsimp only
  split
  · exact h
  · split
    · exact h
    · rename_i iso heq
      split
      · exact h
      · exact keysLen2_insertCode _ (pyOrOpt_norm_len2 heq) h

theorem keysLen2_processAll (domains : List Domain) {m : AreaMap}
    (raw : Option String) (h : KeysLen2 m) :
    KeysLen2 (processAll (normalise_iso raw) m domains) := by
  induction domains generalizing m with
  | nil => exact h
  | cons d ds ih => exact ih (keysLen2_processDomain raw d h)

theorem keysLen2_buildMap (domains : List Domain) (raw : Option String) :
    KeysLen2 (buildMap domains (normalise_iso raw)) :=
  keysLen2_processAll domains raw (fun _ hp => absurd hp (List.not_mem_nil _))

theorem keysLen2_mergeEntry {m : AreaMap} (e : String × Json)
    (h : KeysLen2 m) : KeysLen2 (mergeEntry m e) := by
  unfold mergeEntry
  cases hn : normalise_iso (some e.1) with
  | none => exact h
  | some k =>
    cases h2 : e.2
    case arr cs =>
      exact keysLen2_addCodes cs (keysLen2_ensureKey (normalise_iso_len2 hn) h)
    all_goals exact h

theorem keysLen2_mergeDoc (o : List (String × Json)) {m : AreaMap}
    (h : KeysLen2 m) : KeysLen2 (mergeDoc m o) := by
  induction o generalizing m with
  | nil => exact h
  | cons e o ih => exact ih (keysLen2_mergeEntry e h)

theorem keysLen2_merge_existing (docs : List DocInput) :
    ∀ {m : AreaMap} {warns : List String} {m' : AreaMap} {warns' : List String},
      KeysLen2 m → merge_existing m docs warns = Except.ok (m', warns') →
      KeysLen2 m' := by
  induction docs with
  | nil =>
    intro m warns m' warns' h heq
    cases heq
    exact h
  | cons d ds ih =>
    intro m warns m' warns' h heq
    cases d with
    | missing p => exact ih h heq
    | parseError p msg => exact ih h heq
    | parsed p j =>
      cases j
      case obj o => exact ih (keysLen2_mergeDoc o h) heq
      all_goals cases heq

/-! ## Lemmas about finalisation -/

theorem mem_sortByKey {m : AreaMap} {p : String × List String} :
    p ∈ sortByKey m ↔ p ∈ m :=
  (List.perm_insertionSort keyLeProp m).mem_iff

theorem mem_finalize {m : AreaMap} {p : String × List String}
    (hp : p ∈ finalize m) : ∃ q ∈ m, p = (q.1, List.insertionSort strLeProp q.2) := by
  unfold finalize at hp
  rw [mem_sortByKey] at hp
  unfold sortBuckets at hp
  obtain ⟨q, hq, heq⟩ := List.mem_map.mp hp
  exact ⟨q, hq, heq.symm⟩

theorem keysLen2_finalize {m : AreaMap} (h : KeysLen2 m) : KeysLen2 (finalize m) := by
  intro k hk
  obtain ⟨p, hp, rfl⟩ := List.mem_map.mp hk
  obtain ⟨q, hq, rfl⟩ := mem_finalize hp
  exact h q.1 (List.mem_map.mpr ⟨q, hq, rfl⟩)

theorem sorted_keys_finalize (m : AreaMap) :
    ((finalize m).map Prod.fst).Pairwise strLeProp := by
  have hs : (finalize m).Pairwise keyLeProp :=
    List.sorted_insertionSort keyLeProp (sortBuckets m)
  exact List.Pairwise.map Prod.fst (fun a b hab => hab) hs

/-! ## Remaining support lemmas -/

theorem scanTokens_first {pre post : List (List Char)} {t r : List Char}
    (hpre : ∀ t' ∈ pre, tokenCandidate t' = none)
    (ht : tokenCandidate t = some r) : scanTokens (pre ++ t :: post) = some r := by
  induction pre with
  | nil => simp [scanTokens, ht]
  | cons p ps ih =>
    have hp : tokenCandidate p = none := hpre p (List.mem_cons_self _ _)
    simp only [List.cons_append, scanTokens, hp]
    exact ih (fun t' h' => hpre t' (List.mem_cons_of_mem _ h'))

theorem normalise_iso_ne_empty {v : Option String} {k : String}
    (h : normalise_iso v = some k) : k ≠ "" := by
  intro heq
  subst heq
  have h2 := normalise_iso_len2 h
  exact absurd h2 (by decide)

/-! ## The claims -/

/-- C1, counterexample: the claim says a standalone 2-letter token anywhere
in the name takes priority over an earlier letter-letter-digit token, so on
the name "DE1 SE" (whose EIC is not in the override table) it predicts
"SE".  The scan is single-pass, so `guess_iso` returns "DE" from the first
token instead. -/
theorem claim_C1_counterexample :
    guess_iso "DE1 SE" "0000" = some "DE" ∧ guess_iso "DE1 SE" "0000" ≠ some "SE" := by
  constructor
  · rfl
  · decide

/-- C1, amended: for an EIC outside the override table, the token scan is a
single pass in token order: the first token for which either per-token rule
fires (the exactly-2-alphabetic rule checked first, then the
2-letters-followed-by-digit rule) determines the result; a later standalone
2-letter token does not win over an earlier letter-letter-digit token. -/
theorem claim_C1 (name eic : String) (pre post : List (List Char)) (t r : List Char)
    (hforce : dictFind FORCE_ISO eic = none)
    (htok : nameTokens name = pre ++ t :: post)
    (hpre : ∀ t' ∈ pre, tokenCandidate t' = none)
    (ht : tokenCandidate t = some r) :
    guess_iso name eic = some (String.mk r) := by
  unfold guess_iso
  rw [hforce, htok, scanTokens_first hpre ht]

/-- C1, witness: in "Q DE1 SE" the token "Q" matches neither rule and
"DE1" matches the digit rule, so classification returns "DE". -/
theorem claim_C1_witness :
    guess_iso "Q DE1 SE" "0000" = some (String.mk ['D', 'E']) :=
  claim_C1 "Q DE1 SE" "0000" [['Q']] [['S', 'E']] ['D', 'E', '1'] ['D', 'E']
    (by decide) (by decide) (by decide) (by decide)

/-- C2, counterexample: a merge document that parses to a JSON array (not
an object) produces no warning and is not skipped: `merge_existing` aborts
with an uncaught `AttributeError` at `loaded.items()`, and the remaining
documents (here one with a parse error that would have warned) are never
processed. -/
theorem claim_C2_counterexample :
    merge_existing []
      [DocInput.parsed "bad.json" (Json.arr []),
       DocInput.parseError "later.json" "boom"] [] =
      Except.error (PyErr.attributeError "items") := rfl

/-- C2, amended: a merge document whose text fails JSON parsing yields a
non-fatal warning and is skipped with the remaining documents still
processed; but a document whose JSON parses to a non-object aborts the
whole run with an uncaught `AttributeError`. -/
theorem claim_C2 (m : AreaMap) (ds : List DocInput) (warns : List String)
    (p msg : String) (j : Json) (hj : ∀ o, j ≠ Json.obj o) :
    merge_existing m (DocInput.parseError p msg :: ds) warns =
      merge_existing m ds (warns ++ [parseWarning p msg]) ∧
    merge_existing m (DocInput.parsed p j :: ds) warns =
      Except.error (PyErr.attributeError "items") := by
  constructor
  · rfl
  · cases j
    case obj o => exact absurd rfl (hj o)
    all_goals rfl

/-- C2, witness: a parse failure warns and continues; a top-level array
aborts. -/
theorem claim_C2_witness :
    merge_existing [] [DocInput.parseError "a.json" "oops"] [] =
      merge_existing [] [] ([] ++ [parseWarning "a.json" "oops"]) ∧
    merge_existing [] [DocInput.parsed "a.json" (Json.arr [])] [] =
      Except.error (PyErr.attributeError "items") :=
  claim_C2 [] [] [] "a.json" "oops" (Json.arr []) (fun _ h => Json.noConfusion h)

/-- C3, counterexample: `normalise_iso` checks only the length, so the
non-alphabetic candidate "12" is accepted, and a run with
`--default-iso 12` files an unclassifiable record under the finalized
top-level key "12", which is not two uppercase letters. -/
theorem claim_C3_counterexample :
    normalise_iso (some "12") = some "12" ∧
    finalize (buildMap [⟨some "XXXX", none, some "mystery", none, none, none⟩]
      (normalise_iso (some "12"))) = [("12", ["XXXX"])] ∧
    ("12" : String).data.all Char.isAlpha = false := by
  refine ⟨rfl, ?_, rfl⟩
  decide

/-- C3, amended: normalisation accepts any candidate whose stripped,
uppercased form has exactly 2 characters (not necessarily letters), and
consequently every top-level key of the finalized mapping — whether it came
from classification, from the caller-supplied default, or from a merged
document — has exactly 2 characters. -/
theorem claim_C3 (domains : List Domain) (raw : Option String) (docs : List DocInput)
    (m : AreaMap) (warns : List String) (k : String)
    (hrun : merge_existing (buildMap domains (normalise_iso raw)) docs [] =
      Except.ok (m, warns))
    (hk : k ∈ (finalize m).map Prod.fst) :
    k.data.length = 2 :=
  keysLen2_finalize (keysLen2_merge_existing docs (keysLen2_buildMap domains raw) hrun)
    k hk

/-- C3, witness: the key "SE" produced by a concrete run has 2
characters. -/
theorem claim_C3_witness : ("SE" : String).data.length = 2 :=
  claim_C3 [⟨some "10Y1001A1001A46L", none, some "SE3 (Sweden)", none, none, none⟩]
    none [] [("SE", ["10Y1001A1001A46L"])] [] "SE" (by rfl) (by decide)

/-- C4: an EIC present in the force-override table short-circuits
classification: `guess_iso` returns the mapped ISO code for every display
name whatsoever. -/
theorem claim_C4 (name eic v : String) (h : dictFind FORCE_ISO eic = some v) :
    guess_iso name eic = some v := by
  unfold guess_iso
  rw [h]

/-- C4, witness: the override for the NO5 EIC wins although the name
contains the token "SE3". -/
theorem claim_C4_witness :
    guess_iso "Whatever (SE3)" "10Y1001A1001A48H" = some "NO" :=
  claim_C4 "Whatever (SE3)" "10Y1001A1001A48H" "NO" (by rfl)

/-- C5: when classification (after normalisation) yields nothing for a
record with a non-empty stripped EIC, the normalised caller-supplied
default is used as its bucket, and with no normalisable default the record
contributes nothing and raises no error. -/
theorem claim_C5 (raw : Option String) (m : AreaMap) (d : Domain)
    (h1 : ¬ domainEic d = "")
    (h2 : normalise_iso (guess_iso (domainName d) (domainEic d)) = none) :
    processDomain (normalise_iso raw) m d =
      match normalise_iso raw with
      | some k => insertCode m k (domainEic d)
      | none => m := by
  unfold processDomain
  dsimp only
  rw [if_neg h1, h2]
  cases hr : normalise_iso raw with
  | none => rfl
  | some k =>
    show (if k = "" then m else insertCode m k (domainEic d)) = insertCode m k (domainEic d)
    rw [if_neg (normalise_iso_ne_empty hr)]

/-- C5, witness: the unclassifiable record with EIC "XXXX" is filed under
the normalised default "XX". -/
theorem claim_C5_witness :
    processDomain (normalise_iso (some "xx")) []
      ⟨some "XXXX", none, some "mystery", none, none, none⟩ =
      match normalise_iso (some "xx") with
      | some k => insertCode [] k
          (domainEic ⟨some "XXXX", none, some "mystery", none, none, none⟩)
      | none => ([] : AreaMap) :=
  claim_C5 (some "xx") [] ⟨some "XXXX", none, some "mystery", none, none, none⟩
    (by decide) (by rfl)

/-- C6: merging the same parsed document a second time changes nothing,
and bucket uniqueness is preserved both by merge insertion and by
classified-record insertion. -/
theorem claim_C6 (m : AreaMap) (o : List (String × Json)) (k eic : String)
    (h : BucketsNodup m) :
    mergeDoc (mergeDoc m o) o = mergeDoc m o ∧
    BucketsNodup (mergeDoc m o) ∧
    BucketsNodup (insertCode m k eic) :=
  ⟨mergeDoc_idem m o, bucketsNodup_mergeDoc o h, bucketsNodup_insertCode k eic h⟩

/-- C6, witness: a concrete double merge and insertion. -/
theorem claim_C6_witness :
    mergeDoc (mergeDoc [("DE", ["B"])] [("de", Json.arr [Json.str "A"])])
        [("de", Json.arr [Json.str "A"])] =
      mergeDoc [("DE", ["B"])] [("de", Json.arr [Json.str "A"])] ∧
    BucketsNodup (mergeDoc [("DE", ["B"])] [("de", Json.arr [Json.str "A"])]) ∧
    BucketsNodup (insertCode [("DE", ["B"])] "SE" "X") :=
  claim_C6 [("DE", ["B"])] [("de", Json.arr [Json.str "A"])] "SE" "X"
    (by unfold BucketsNodup; decide)

/-- C7: when the override table and the token scan both yield nothing, for
an EIC starting with "10Y" classification keeps the alphabetic characters
among positions 3 and 4 (0-indexed) and returns them exactly when 2
remain; otherwise the record is undetermined. -/
theorem claim_C7 (name eic : String)
    (hforce : dictFind FORCE_ISO eic = none)
    (hscan : scanTokens (nameTokens name) = none)
    (h10y : eic.data.take 3 = ['1', '0', 'Y']) :
    guess_iso name eic =
      (if (((eic.data.drop 3).take 2).filter Char.isAlpha).length = 2
       then some (String.mk (((eic.data.drop 3).take 2).filter Char.isAlpha))
       else none) := by
  unfold guess_iso
  rw [hforce, hscan]
  show eicFallback eic = _
  unfold eicFallback
  dsimp only
  by_cases hlen : 5 ≤ eic.data.length
  · rw [if_pos ⟨hlen, h10y⟩]
  · rw [if_neg (fun hc => hlen hc.1)]
    have h1 := List.length_filter_le Char.isAlpha ((eic.data.drop 3).take 2)
    have h2 : ((eic.data.drop 3).take 2).length = min 2 (eic.data.length - 3) := by
      rw [List.length_take, List.length_drop]
    rw [if_neg (by omega)]

/-- C7, witness: the EIC "10YFI-1--------U" with an empty name classifies
to "FI" via the positions 3-4 fallback. -/
theorem claim_C7_witness :
    guess_iso "" "10YFI-1--------U" = some "FI" :=
  (claim_C7 "" "10YFI-1--------U" (by decide) (by decide) (by decide)).trans (by decide)

/-- C8: on every successful run, the text written is the finalized mapping
— every bucket sorted by the code-point string order and duplicate-free,
top-level keys sorted — serialized as 2-space-indented JSON ending with a
trailing newline. -/
theorem claim_C8 (domains : List Domain) (raw : Option String) (docs : List DocInput)
    (m : AreaMap) (warns : List String)
    (hrun : merge_existing (buildMap domains (normalise_iso raw)) docs [] =
      Except.ok (m, warns)) :
    runCore domains raw docs = Except.ok (outputText m, warns) ∧
    (∀ p ∈ finalize m, p.2.Sorted strLeProp ∧ p.2.Nodup) ∧
    ((finalize m).map Prod.fst).Sorted strLeProp ∧
    outputText m = jsonDumps (finalize m) ++ "\n" ∧
    (outputText m).data.getLast? = some '\n' := by
  have hnd : BucketsNodup m :=
    bucketsNodup_merge_existing docs
      (bucketsNodup_buildMap domains (normalise_iso raw)) hrun
  refine ⟨?_, ?_, sorted_keys_finalize m, rfl, ?_⟩
  · unfold runCore
    rw [hrun]
  · intro p hp
    obtain ⟨q, hq, rfl⟩ := mem_finalize hp
    exact ⟨List.sorted_insertionSort strLeProp q.2,
      ((List.perm_insertionSort strLeProp q.2).nodup_iff).mpr (hnd q hq)⟩
  · show ((jsonDumps (finalize m)).data ++ ['\n']).getLast? = some '\n'
    exact List.getLast?_concat _

/-- C8, witness: a concrete successful run. -/
theorem claim_C8_witness :
    runCore [⟨some "10Y1001A1001A46L", none, some "SE3 (Sweden)", none, none, none⟩]
        none [] =
      Except.ok (outputText [("SE", ["10Y1001A1001A46L"])], []) ∧
    (∀ p ∈ finalize [("SE", ["10Y1001A1001A46L"])], p.2.Sorted strLeProp ∧ p.2.Nodup) ∧
    ((finalize [("SE", ["10Y1001A1001A46L"])]).map Prod.fst).Sorted strLeProp ∧
    outputText [("SE", ["10Y1001A1001A46L"])] =
      jsonDumps (finalize [("SE", ["10Y1001A1001A46L"])]) ++ "\n" ∧
    (outputText [("SE", ["10Y1001A1001A46L"])]).data.getLast? = some '\n' :=
  claim_C8 [⟨some "10Y1001A1001A46L", none, some "SE3 (Sweden)", none, none, none⟩]
    none [] [("SE", ["10Y1001A1001A46L"])] [] (by rfl)

/-- C9: the pipeline is deterministic: classification is a pure function
of the display name and the EIC (the override table being a fixed
constant), with no dependence on other records, and two runs on identical
domain lists, default argument and merge inputs produce identical results
— in particular byte-identical output text. -/
theorem claim_C9 (doms1 doms2 : List Domain) (raw1 raw2 : Option String)
    (docs1 docs2 : List DocInput) (n1 n2 e1 e2 : String)
    (hd : doms1 = doms2) (hr : raw1 = raw2) (hdoc : docs1 = docs2)
    (hn : n1 = n2) (he : e1 = e2) :
    runCore doms1 raw1 docs1 = runCore doms2 raw2 docs2 ∧
    guess_iso n1 e1 = guess_iso n2 e2 := by
  subst hd
  subst hr
  subst hdoc
  subst hn
  subst he
  exact ⟨rfl, rfl⟩

/-- C9, witness: two identical concrete runs agree. -/
theorem claim_C9_witness :
    runCore [⟨some "10Y1001A1001A46L", none, some "SE3 (Sweden)", none, none, none⟩]
        none [] =
      runCore [⟨some "10Y1001A1001A46L", none, some "SE3 (Sweden)", none, none, none⟩]
        none [] ∧
    guess_iso "SE3 (Sweden)" "10Y1001A1001A46L" =
      guess_iso "SE3 (Sweden)" "10Y1001A1001A46L" :=
  claim_C9 _ _ none none [] [] _ _ _ _ rfl rfl rfl rfl rfl

/-- C10: a Domain element whose mRID text chain strips to the empty string
(missing, empty or whitespace-only) is skipped before classification: it
contributes nothing to the map even when a default ISO is supplied, and
the loop body returns the map unchanged (no warning, no error). -/
theorem claim_C10 (defaultIso : Option String) (m : AreaMap) (d : Domain)
    (h : domainEic d = "") : processDomain defaultIso m d = m := by
  unfold processDomain
  dsimp only
  rw [if_pos h]

/-- C10, witness: a whitespace-only mRID is dropped even with a default
ISO supplied. -/
theorem claim_C10_witness :
    processDomain (some "XX") [("AA", ["x"])]
      ⟨some "  ", none, some "Sweden SE", none, none, none⟩ = [("AA", ["x"])] :=
  claim_C10 (some "XX") [("AA", ["x"])]
    ⟨some "  ", none, some "Sweden SE", none, none, none⟩ (by decide)

end Entsoe
